import Mathlib

/-!
Verification of the go-factory fixture-generation library (kolach/go-factory).

The development shallowly embeds the factory engine of `factory.go`
(the revision using `fieldIndex`, i.e. the first version in the provided
sources), the generator combinators of `gen.go`, and the binding DSL of
`dsl.go`.  Go's reflection-level behaviour is modelled explicitly:

* `GoVal` is the value universe (`interface{}` contents); `GoVal.vNil` is the
  untyped nil interface value, whose `reflect.ValueOf` is the zero
  `reflect.Value` (kind `Invalid`).
* struct types are flat lists of named, kinded fields (the claims only
  involve flat structs); a struct instance is the positional list of its
  field values, matching `FieldByIndex` access.
* reflection panics (`Set` with a zero `Value`, unsettable field, type
  mismatch) are reified as `GoPanic` results; `error` returns of generators
  are `GoErr` values.
* mutation is modelled by explicit state passing: the caller-owned instance
  and the (single, generic) generator state `σ` are threaded through the
  population walk; the backing arrays of `fieldGens` slices live in an
  explicit `Store`, so that frame properties (Derive never writes the
  receiver's slice) are real statements about which slots get written.
-/

namespace GoFactory

/-- Go reflection kinds, restricted to the kinds the library's tests and
claims exercise.  `reflect.Kind` of a value or struct field. -/
inductive GoKind where
  | kInt
  | kStr
  | kBool
  | kPtr
  | kSlice
  | kMap
  | kStruct
deriving DecidableEq, Repr

/-- Go `interface{}` values.  `vNil` is the untyped nil interface
(`reflect.ValueOf` of it is the invalid zero `reflect.Value`);
`vPtr v` is a non-nil pointer whose pointee holds `v`. -/
inductive GoVal where
  | vInt (n : Int)
  | vStr (s : String)
  | vBool (b : Bool)
  | vNil
  | vPtr (v : GoVal)
  | vSlice (vs : List GoVal)
  | vMap (kvs : List (GoVal × GoVal))
  | vStruct (fs : List (String × GoVal))

/-- One declared field of a target struct type: its name, its reflection
kind, and whether it is exported (`PkgPath == ""` in `reflect.StructField`). -/
structure GoField where
  name : String
  kind : GoKind
  exported : Bool
deriving DecidableEq, Repr

/-- A target struct type: its fields in declaration order. -/
structure GoType where
  fields : List GoField
deriving DecidableEq, Repr

/-- `reflect.ValueOf(v).Kind()`: `none` models kind `Invalid`
(the untyped nil interface). -/
def kindOf : GoVal → Option GoKind
  | GoVal.vInt _ => some GoKind.kInt
  | GoVal.vStr _ => some GoKind.kStr
  | GoVal.vBool _ => some GoKind.kBool
  | GoVal.vNil => none
  | GoVal.vPtr _ => some GoKind.kPtr
  | GoVal.vSlice _ => some GoKind.kSlice
  | GoVal.vMap _ => some GoKind.kMap
  | GoVal.vStruct _ => some GoKind.kStruct

/-- Whether `reflect.ValueOf(v).Kind() == reflect.Ptr`. -/
def isPtrVal : GoVal → Bool
  | GoVal.vPtr _ => true
  | _ => false

/-- `reflect.Value.Elem()` on a non-nil pointer value. -/
def derefPtr : GoVal → GoVal
  | GoVal.vPtr v => v
  | v => v

/-- `reflect.Zero(T)` for a field of the given kind (flat types only:
the structs the claims use never need a nested struct zero). -/
def zeroValK : GoKind → GoVal
  | GoKind.kInt => GoVal.vInt 0
  | GoKind.kStr => GoVal.vStr ""
  | GoKind.kBool => GoVal.vBool false
  | GoKind.kPtr => GoVal.vNil
  | GoKind.kSlice => GoVal.vNil
  | GoKind.kMap => GoVal.vNil
  | GoKind.kStruct => GoVal.vStruct []

/-- The zero instance of a struct type, as allocated by
`reflect.New(f.typ)` in `Factory.new`. -/
def zeroInstance (typ : GoType) : List GoVal :=
  typ.fields.map (fun fld => zeroValK fld.kind)

/-- The field-name/value view of an instance, i.e. what
`instance.Interface()` exposes (a `*T` aliasing the struct being filled). -/
def zipNames (typ : GoType) (inst : List GoVal) : List (String × GoVal) :=
  (typ.fields.map GoField.name).zip inst

/-- Reflection / configuration panics of the engine
(`panic(...)` calls in `factory.go` and panics raised inside `reflect`). -/
inductive GoPanic where
  | fieldNotFound (name : String)
  | fieldCannotBeSet (name : String)
  | setZeroValue
  | typeMismatch
  | indexOutOfRange
  | divideByZero
  | stackOverflow
  | mustPanic (e : Nat)
deriving DecidableEq, Repr

/-- Generator runtime errors (the `error` result of a `GeneratorFunc`),
modelled as opaque values. -/
abbrev GoErr := Nat

/-- `reflect.Value.Set(x)` on the field `fld` of an addressable struct:
panics if the field is unexported (`mustBeAssignable`), then if `x` is the
zero `Value` (`mustBeExported` on the invalid value produced by
`reflect.ValueOf(nil)`), then if the types do not line up (`assignTo`);
kinds stand in for types here, the claims use one type per kind. -/
def setStep (fld : GoField) (v : GoVal) : Except GoPanic GoVal :=
  if fld.exported = false then Except.error (GoPanic.fieldCannotBeSet fld.name)
  else
    match kindOf v with
    | none => Except.error GoPanic.setZeroValue
    | some k => if k = fld.kind then Except.ok v else Except.error GoPanic.typeMismatch

/-- Result of one population walk (`setFields`): normal return of `nil`,
return of a generator error, or a Go panic escaping the walk. -/
inductive PopResult where
  | ok
  | genErr (e : GoErr)
  | panicked (p : GoPanic)
deriving DecidableEq, Repr

/-- Result of one generator invocation: the `(interface{}, error)` pair,
with a third alternative for a panic raised inside the generator. -/
inductive GenOut where
  | ok (v : GoVal)
  | err (e : GoErr)
  | panicked (p : GoPanic)

/-- The population callback a generator can reach through its context's
factory self-reference (`ctx.Factory.SetFields(&child)`): it takes the
child instance and the current generator state and returns the walk
result, the populated child and the new state. -/
abbrev RecFun (σ : Type) := List GoVal → σ → PopResult × List GoVal × σ

/-- The execution context `Ctx` handed to a generator: the current field
name, the `*T` view of the instance being populated, and the factory
self-reference, modelled by its call depth plus its `SetFields` entry
point.  `factoryDepth` is the `callDepth` of the `ctx.Factory` view.
Modelled from the spec: the `callDepth` counter on the context's factory
self-reference and its `CallDepth()` accessor belong to a revision of
`factory.go` that is absent from the provided sources (only its tests and
README use them); per the spec the view handed to generators is "advanced
to the next call depth". -/
structure Ctx (σ : Type) where
  field : String
  inst : GoVal
  factoryDepth : Nat
  recurse : RecFun σ

/-- Modelled from the spec: `Factory.CallDepth()` as seen by a generator
through `ctx.Factory` — "returns the current recursion depth of this
Factory view, starting at 1 for the outermost population call". -/
def Ctx.CallDepth (c : Ctx σ) : Nat := c.factoryDepth

/-- `GeneratorFunc`: a field generator.  The generic state `σ` threads the
private mutable state of the program's generators (sequence counters,
recorded call depths, ...) through the walk. -/
abbrev GeneratorFunc (σ : Type) := Ctx σ → σ → GenOut × σ

/-- `fieldGen`: field name, resolved field index and generator
(the binding tuple of `factory.go`). -/
structure FieldGen (σ : Type) where
  fieldName : String
  fieldIndex : Nat
  generator : GeneratorFunc σ

/-- `FieldGenFunc`: a binding factory, evaluated against a sample of the
target type; panics (here: `Except.error`) when validation fails. -/
abbrev FieldGenFunc (σ : Type) := GoType → Except GoPanic (List (FieldGen σ))

/-- `Value`: converts a value into a constant generator
(returns the value with a nil error, every time). -/
def Value (i : GoVal) : GeneratorFunc σ := fun _ s => (GenOut.ok i, s)

/-- The context built for one binding inside the walk: the field marker,
the aliasing `*T` instance view (generators observe fields assigned
earlier in the same walk), and the depth-advanced factory view. -/
def mkCtx (typ : GoType) (rc : RecFun σ) (d : Nat) (name : String)
    (inst : List GoVal) : Ctx σ :=
  { field := name
    inst := GoVal.vPtr (GoVal.vStruct (zipNames typ inst))
    factoryDepth := d + 1
    recurse := rc }

/-- The binding loop of `setFields`: for each binding set the context's
field marker, invoke the generator, abort on error, otherwise locate the
field by index, dereference a pointer result aimed at a non-pointer field,
and `Set` the field.  `rc` is the population entry point of the
depth-advanced factory view handed to generators; `d` is the call depth of
the factory executing the walk. -/
def walk (typ : GoType) (rc : RecFun σ) (d : Nat) :
    List (FieldGen σ) → List GoVal → σ → PopResult × List GoVal × σ
  | [], inst, s => (PopResult.ok, inst, s)
  | fg :: rest, inst, s =>
    match fg.generator (mkCtx typ rc d fg.fieldName inst) s with
    | (GenOut.panicked p, s') => (PopResult.panicked p, inst, s')
    | (GenOut.err e, s') => (PopResult.genErr e, inst, s')
    | (GenOut.ok val, s') =>
      match typ.fields.get? fg.fieldIndex with
      | none => (PopResult.panicked GoPanic.indexOutOfRange, inst, s')
      | some fld =>
        let valueof := if fld.kind ≠ GoKind.kPtr ∧ isPtrVal val then derefPtr val else val
        match setStep fld valueof with
        | Except.error p => (PopResult.panicked p, inst, s')
        | Except.ok v => walk typ rc d rest (inst.set fg.fieldIndex v) s'

/-- The recursive population engine: running a factory view with bindings
`all` at call depth `d`.  Each nested invocation reached through
`ctx.Factory` runs the same bindings one depth deeper; `fuel` bounds the
Go call stack (exhaustion models the stack overflow of unbounded
recursion, which the engine does not prevent). -/
def engine (fuel : Nat) (typ : GoType) (all : List (FieldGen σ)) (d : Nat)
    (inst : List GoVal) (s : σ) : PopResult × List GoVal × σ :=
  match fuel with
  | 0 => (PopResult.panicked GoPanic.stackOverflow, inst, s)
  | fuel' + 1 =>
    walk typ (fun child s' => engine fuel' typ all (d + 1) child s') d all inst s

/-- Resolve a field name against the fields of the sample's type, returning
its index and descriptor — `typ.FieldByName` (which finds exported and
unexported fields alike on these flat types). -/
def findField (k : Nat) : List GoField → String → Option (Nat × GoField)
  | [], _ => none
  | fld :: rest, name =>
    if fld.name = name then some (k, fld) else findField (k + 1) rest name

/-- The binding-validation loop of `WithGen`: for each requested field name,
panic if the name is not found on the target type, or if the resolved field
cannot be set (unexported); otherwise emit the binding tuple. -/
def withGenAux (g : GeneratorFunc σ) : List String → GoType → Except GoPanic (List (FieldGen σ))
  | [], _ => Except.ok []
  | name :: rest, typ =>
    match findField 0 typ.fields name with
    | none => Except.error (GoPanic.fieldNotFound name)
    | some (i, fld) =>
      if fld.exported = false then Except.error (GoPanic.fieldCannotBeSet name)
      else
        match withGenAux g rest typ with
        | Except.error p => Except.error p
        | Except.ok gens => Except.ok (FieldGen.mk name i g :: gens)

/-- `WithGen`: attach a generator to one or more named fields, with the
embedded existence / settability check against the target type sample. -/
def WithGen (g : GeneratorFunc σ) (fields : List String) : FieldGenFunc σ :=
  fun typ => withGenAux g fields typ

/-- `FieldGeneratorBuilder` of `dsl.go`. -/
structure FieldGeneratorBuilder (σ : Type) where
  generator : GeneratorFunc σ

/-- `Use`: for a plain (non-function) value with no extra arguments,
`NewGenerator` resolves to the constant generator `Value` (`gen.go`),
so `Use(v)` carries `Value v`. -/
def Use (i : GoVal) : FieldGeneratorBuilder σ :=
  FieldGeneratorBuilder.mk (Value i)

/-- `For`: bind the builder's generator to the given fields via `WithGen`. -/
def FieldGeneratorBuilder.For (b : FieldGeneratorBuilder σ) (fields : List String) :
    FieldGenFunc σ :=
  WithGen b.generator fields

/-- `isZero` of `factory.go`: slices, pointers and maps are zero when nil
(`IsNil`); other kinds compare against the allocated zero value. -/
def isZero : GoKind → GoVal → Bool
  | GoKind.kSlice, v => match v with | GoVal.vNil => true | _ => false
  | GoKind.kPtr, v => match v with | GoVal.vNil => true | _ => false
  | GoKind.kMap, v => match v with | GoVal.vNil => true | _ => false
  | GoKind.kInt, v => match v with | GoVal.vInt n => n == 0 | _ => false
  | GoKind.kStr, v => match v with | GoVal.vStr s => s == "" | _ => false
  | GoKind.kBool, v => match v with | GoVal.vBool b => b == false | _ => false
  | GoKind.kStruct, v => match v with | GoVal.vStruct fs => fs.isEmpty | _ => false

/-- `ProtoGens`: walk the prototype's fields in declaration order, skip
unexported fields, and emit a constant-value binding
(`Use(fieldValue).For(fieldName)`) for every field holding a non-zero
value.  The prototype instance is the positional list of its field
values. -/
def ProtoGens (typ : GoType) (proto : List GoVal) : List (FieldGenFunc σ) :=
  (typ.fields.zip proto).filterMap fun p =>
    if p.1.exported = true ∧ isZero p.1.kind p.2 = false
    then some ((Use p.2).For [p.1.name])
    else none

/-- Evaluate a list of binding factories against the target type sample and
concatenate the produced bindings, propagating the first panic — the
`for _, makeFieldGen := range fieldGenFuncs` loops of `NewFactory` and
`Derive`. -/
def evalFGFs (typ : GoType) : List (FieldGenFunc σ) → Except GoPanic (List (FieldGen σ))
  | [] => Except.ok []
  | f :: rest =>
    match f typ with
    | Except.error p => Except.error p
    | Except.ok a =>
      match evalFGFs typ rest with
      | Except.error p => Except.error p
      | Except.ok b => Except.ok (a ++ b)

/-- The heap of `fieldGens` backing arrays: slot `i` is the slice allocated
by the `i`-th `make`/construction.  Modelling the slices as heap slots makes
"Derive never mutates the receiver's binding list" a real frame statement. -/
abbrev Store (σ : Type) := List (List (FieldGen σ))

/-- Allocate a fresh backing array holding `gens`; returns the new store
and the fresh slot. -/
def allocStore (st : Store σ) (gens : List (FieldGen σ)) : Store σ × Nat :=
  (st ++ [gens], st.length)

/-- `Factory`: target type descriptor plus its (heap-allocated) binding
slice.  `callDepth` is modelled from the spec: the current revision of
`factory.go` carries a per-view recursion counter (see `Ctx`), absent from
the provided source revisions. -/
structure Factory where
  typ : GoType
  gensRef : Nat
  callDepth : Nat

/-- The binding sequence of a factory: its slice read from the store. -/
def getGens (st : Store σ) (f : Factory) : List (FieldGen σ) :=
  st.getD f.gensRef []

/-- Go map from field names to generators (insertion overwrites; only
lookup and delete are used afterwards, so association-list order never
shows). -/
abbrev GenMap (σ : Type) := List (String × GeneratorFunc σ)

/-- Go map insert: overwrite the entry with this key, or add a new one. -/
def mapInsert : GenMap σ → String → GeneratorFunc σ → GenMap σ
  | [], k, g => [(k, g)]
  | p :: rest, k, g => if p.1 = k then (k, g) :: rest else p :: mapInsert rest k g

/-- Go map lookup. -/
def mapLookup : GenMap σ → String → Option (GeneratorFunc σ)
  | [], _ => none
  | p :: rest, k => if p.1 = k then some p.2 else mapLookup rest k

/-- Go map delete. -/
def mapDelete : GenMap σ → String → GenMap σ
  | [], _ => []
  | p :: rest, k => if p.1 = k then mapDelete rest k else p :: mapDelete rest k

/-- `newGensMap`: the override bindings folded into a lookup map
(later bindings for the same name overwrite earlier ones). -/
def buildMap (l : List (FieldGen σ)) : GenMap σ :=
  l.foldl (fun m fg => mapInsert m fg.fieldName fg.generator) []

/-- Phase 1 of `Derive`: copy the original bindings, overriding the
generator of a binding whose name is found in the map and deleting the
name from the map (so only the first binding with a given name is
overridden); returns the copied list and the residual map. -/
def phase1 : List (FieldGen σ) → GenMap σ → List (FieldGen σ) × GenMap σ
  | [], m => ([], m)
  | fg :: rest, m =>
    match mapLookup m fg.fieldName with
    | some g =>
      let r := phase1 rest (mapDelete m fg.fieldName)
      ({ fg with generator := g } :: r.1, r.2)
    | none =>
      let r := phase1 rest m
      (fg :: r.1, r.2)

/-- The binding list computed by `Derive`: phase 1 (copy or override), then
phase 2 (append the override bindings whose names survived in the map,
i.e. named no original binding). -/
def deriveGens (orig newList : List (FieldGen σ)) : List (FieldGen σ) :=
  let m := buildMap newList
  let r := phase1 orig m
  r.1 ++ newList.filter (fun fg => (mapLookup r.2 fg.fieldName).isSome)

/-- `Derive`: validate the override bindings against the factory's own
type sample (panicking on a bad field), compute the overridden binding
list, and allocate a new factory around it.  The receiver's slice is only
read. -/
def Factory.Derive (st : Store σ) (f : Factory) (fieldGenFuncs : List (FieldGenFunc σ)) :
    Except GoPanic (Store σ × Factory) :=
  match evalFGFs f.typ fieldGenFuncs with
  | Except.error p => Except.error p
  | Except.ok newList =>
    Except.ok ((allocStore st (deriveGens (getGens st f) newList)).1,
      Factory.mk f.typ (allocStore st (deriveGens (getGens st f) newList)).2 0)

/-- `NewFactory`: prepend the prototype-derived bindings (when any) to the
explicit ones, evaluate them all against a fresh sample of the target
type, and allocate the factory. -/
def NewFactory (st : Store σ) (typ : GoType) (proto : List GoVal)
    (fieldGenFuncs : List (FieldGenFunc σ)) : Except GoPanic (Store σ × Factory) :=
  match evalFGFs typ (ProtoGens typ proto ++ fieldGenFuncs) with
  | Except.error p => Except.error p
  | Except.ok gens =>
    Except.ok ((allocStore st gens).1, Factory.mk typ (allocStore st gens).2 0)

/-- `SetFields`/`setFields`: with overrides, derive first and run the
derived factory (a panic in override validation escapes before any
generator runs or field is assigned); without overrides, run the walk on
the caller-owned instance.  Returns the walk result, the instance after
the call, the store and the generator state. -/
def Factory.SetFields (fuel : Nat) (st : Store σ) (f : Factory) (inst : List GoVal)
    (fieldGenFuncs : List (FieldGenFunc σ)) (s : σ) :
    PopResult × List GoVal × Store σ × σ :=
  match fieldGenFuncs with
  | [] =>
    let r := engine fuel f.typ (getGens st f) f.callDepth inst s
    (r.1, r.2.1, st, r.2.2)
  | _ :: _ =>
    match Factory.Derive st f fieldGenFuncs with
    | Except.error p => (PopResult.panicked p, inst, st, s)
    | Except.ok (st', g) =>
      let r := engine fuel g.typ (getGens st' g) g.callDepth inst s
      (r.1, r.2.1, st', r.2.2)

/-- `MustSetFields`: as `SetFields`, but a returned generator error becomes
a panic at the call site. -/
def Factory.MustSetFields (fuel : Nat) (st : Store σ) (f : Factory) (inst : List GoVal)
    (fieldGenFuncs : List (FieldGenFunc σ)) (s : σ) :
    PopResult × List GoVal × Store σ × σ :=
  match Factory.SetFields fuel st f inst fieldGenFuncs s with
  | (PopResult.genErr e, i', st', s') => (PopResult.panicked (GoPanic.mustPanic e), i', st', s')
  | r => r

/-- Result of `Create`: the populated `*T` instance, a generator error, or
an escaped panic. -/
inductive CreateRes where
  | ok (v : GoVal)
  | err (e : GoErr)
  | panicked (p : GoPanic)

/-- `Create`: allocate a fresh zero instance of the target type, delegate
to `setFields`, and return `instance.Interface()` — a `*T` pointer to the
populated struct — or the error. -/
def Factory.Create (fuel : Nat) (st : Store σ) (f : Factory)
    (fieldGenFuncs : List (FieldGenFunc σ)) (s : σ) : CreateRes × Store σ × σ :=
  match Factory.SetFields fuel st f (zeroInstance f.typ) fieldGenFuncs s with
  | (PopResult.ok, i', st', s') =>
    (CreateRes.ok (GoVal.vPtr (GoVal.vStruct (zipNames f.typ i'))), st', s')
  | (PopResult.genErr e, _, st', s') => (CreateRes.err e, st', s')
  | (PopResult.panicked p, _, st', s') => (CreateRes.panicked p, st', s')

/-- `MustCreate`: `Create`, converting a generator error into a panic. -/
def Factory.MustCreate (fuel : Nat) (st : Store σ) (f : Factory)
    (fieldGenFuncs : List (FieldGenFunc σ)) (s : σ) : CreateRes × Store σ × σ :=
  match Factory.Create fuel st f fieldGenFuncs s with
  | (CreateRes.err e, st', s') => (CreateRes.panicked (GoPanic.mustPanic e), st', s')
  | r => r

/-- `Seq`: the sequential integer generator of `gen.go`; its closed-over
counter is the explicit state.  Returns `n % max` and increments the
counter (the deferred `n++` runs even when `n % 0` panics). -/
def Seq (max : Nat) : Nat → Except GoPanic Nat × Nat :=
  fun n =>
    ((if max = 0 then Except.error GoPanic.divideByZero else Except.ok (n % max)), n + 1)

/-- `Select`: pick `options[g()]` where `g` is produced by the strategy
applied to the option count; an index panic or a strategy panic escapes as
a generator panic. -/
def Select (f : Nat → Nat → Except GoPanic Nat × Nat) (options : List GoVal) :
    GeneratorFunc Nat :=
  fun _ n =>
    match f options.length n with
    | (Except.error p, n') => (GenOut.panicked p, n')
    | (Except.ok i, n') =>
      match options.get? i with
      | some v => (GenOut.ok v, n')
      | none => (GenOut.panicked GoPanic.indexOutOfRange, n')

/-- `SeqSelect = Select(Seq, options...)`: round-robin selection. -/
def SeqSelect (options : List GoVal) : GeneratorFunc Nat :=
  Select Seq options

/-- Invoke a generator repeatedly from the same context (one instance of
the closure, many calls), collecting the outputs. -/
def genOutputs (g : GeneratorFunc σ) (c : Ctx σ) (s : σ) : Nat → List GenOut × σ
  | 0 => ([], s)
  | n + 1 =>
    let r := g c s
    let rest := genOutputs g c r.2 n
    (r.1 :: rest.1, rest.2)

/-- The store-independent observables of a `SetFields` call: walk result,
instance after the call, generator state after the call. -/
def dropStore (r : PopResult × List GoVal × Store σ × σ) : PopResult × List GoVal × σ :=
  (r.1, r.2.1, r.2.2.2)

/-- The field-name list of a `*T` pointer to a struct (`none` for any other
shape of value): the observable "dynamic type" of a `Create` result. -/
def ptrStructNames : GoVal → Option (List String)
  | GoVal.vPtr (GoVal.vStruct fs) => some (fs.map Prod.fst)
  | _ => none

section Lemmas

variable {σ : Type}

theorem getGens_append_of_lt (st : Store σ) (l : List (FieldGen σ)) (f : Factory)
    (h : f.gensRef < st.length) : getGens (st ++ [l]) f = getGens st f := by
  unfold getGens
  rw [List.getD_eq_getElem?_getD, List.getD_eq_getElem?_getD, List.getElem?_append_left h]

theorem getGens_alloc_self (st : Store σ) (l : List (FieldGen σ)) (t : GoType) (d : Nat) :
    getGens (st ++ [l]) (Factory.mk t st.length d) = l := by
  unfold getGens
  rw [List.getD_eq_getElem?_getD, List.getElem?_concat_length]
  rfl

theorem derive_ok_elim {st : Store σ} {f : Factory} {ovs : List (FieldGenFunc σ)}
    {st' : Store σ} {g : Factory}
    (h : Factory.Derive st f ovs = Except.ok (st', g)) :
    ∃ newList, evalFGFs f.typ ovs = Except.ok newList ∧
      st' = st ++ [deriveGens (getGens st f) newList] ∧
      g = Factory.mk f.typ st.length 0 := by
  unfold Factory.Derive at h
  cases heval : evalFGFs f.typ ovs with
  | error p => rw [heval] at h; exact absurd h (by simp)
  | ok newList =>
    rw [heval] at h
    simp only [allocStore] at h
    have h2 := Except.ok.inj h
    exact ⟨newList, rfl, (congrArg Prod.fst h2).symm, (congrArg Prod.snd h2).symm⟩

theorem walk_length (typ : GoType) (rc : RecFun σ) (d : Nat) :
    ∀ (gens : List (FieldGen σ)) (inst : List GoVal) (s : σ),
      ((walk typ rc d gens inst s).2.1).length = inst.length := by
  intro gens
  induction gens with
  | nil => intro inst s; rfl
  | cons fg rest ih =>
    intro inst s
    simp only [walk]
    split
    · rfl
    · rfl
    · split
      · rfl
      · split
        · rfl
        · rw [ih]; exact List.length_set ..

theorem engine_length (fuel : Nat) (typ : GoType) (all : List (FieldGen σ)) (d : Nat)
    (inst : List GoVal) (s : σ) :
    ((engine fuel typ all d inst s).2.1).length = inst.length := by
  cases fuel with
  | zero => rfl
  | succ fuel' => exact walk_length ..

theorem setFields_length (fuel : Nat) (st : Store σ) (f : Factory) (inst : List GoVal)
    (fgfs : List (FieldGenFunc σ)) (s : σ) :
    ((Factory.SetFields fuel st f inst fgfs s).2.1).length = inst.length := by
  cases fgfs with
  | nil => exact engine_length fuel f.typ (getGens st f) f.callDepth inst s
  | cons a l =>
    cases hd : Factory.Derive st f (a :: l) with
    | error p => simp only [Factory.SetFields, hd]
    | ok p =>
      obtain ⟨st', g⟩ := p
      simp only [Factory.SetFields, hd]
      exact engine_length fuel g.typ (getGens st' g) g.callDepth inst s

theorem zipNames_fst (typ : GoType) (inst : List GoVal)
    (h : inst.length = typ.fields.length) :
    (zipNames typ inst).map Prod.fst = typ.fields.map GoField.name := by
  unfold zipNames
  exact List.map_fst_zip _ _ (by simp [h])

end Lemmas

/-- A one-field target type used by the concrete instances:
`type X struct { X int }`. -/
def XT : GoType := GoType.mk [GoField.mk "X" GoKind.kInt true]

/-- A concrete factory over `XT` with one binding `Use(1).For("X")`
(zero prototype, so no implicit bindings), together with its store. -/
def xFact : Store Unit × Factory :=
  match NewFactory ([] : Store Unit) XT [GoVal.vInt 0] [(Use (GoVal.vInt 1)).For ["X"]] with
  | Except.ok r => r
  | Except.error _ => ([], Factory.mk XT 0 0)

/-- `xFact` derived with the override `Use(9).For("X")`. -/
def xDerived : Store Unit × Factory :=
  match Factory.Derive xFact.1 xFact.2 [(Use (GoVal.vInt 9)).For ["X"]] with
  | Except.ok r => r
  | Except.error _ => ([], Factory.mk XT 0 0)

/-- C1: with overrides, `SetFields` literally delegates to
`Derive(overrides).SetFields(instance)`; the derivation allocates a fresh
binding slice and leaves the receiver's untouched, so a later
population call on the original factory is unaffected. -/
theorem C1_override_scoped {σ : Type} (fuel : Nat) (st : Store σ) (f : Factory)
    (inst : List GoVal) (ov : FieldGenFunc σ) (ovs : List (FieldGenFunc σ)) (s : σ)
    (st' : Store σ) (g : Factory)
    (hwf : f.gensRef < st.length)
    (hd : Factory.Derive st f (ov :: ovs) = Except.ok (st', g)) :
    Factory.SetFields fuel st f inst (ov :: ovs) s = Factory.SetFields fuel st' g inst [] s
    ∧ Factory.Create fuel st f (ov :: ovs) s = Factory.Create fuel st' g [] s
    ∧ getGens st' f = getGens st f
    ∧ ∀ (fuel2 : Nat) (inst2 : List GoVal) (s2 : σ),
        dropStore (Factory.SetFields fuel2 st' f inst2 [] s2)
          = dropStore (Factory.SetFields fuel2 st f inst2 [] s2) := by
  obtain ⟨newList, heval, hst, hg⟩ := derive_ok_elim hd
  have htyp : g.typ = f.typ := by rw [hg]
  have hpres : getGens st' f = getGens st f := by
    rw [hst]; exact getGens_append_of_lt st _ f hwf
  have hset : ∀ (i : List GoVal),
      Factory.SetFields fuel st f i (ov :: ovs) s = Factory.SetFields fuel st' g i [] s := by
    intro i
    simp only [Factory.SetFields, hd]
  refine ⟨hset inst, ?_, hpres, ?_⟩
  · unfold Factory.Create
    rw [htyp, hset (zeroInstance f.typ)]
  · intro fuel2 inst2 s2
    simp only [Factory.SetFields, dropStore]
    rw [hpres]

/-- Witness for C1 at a concrete factory over a one-field struct. -/
theorem C1_override_scoped_witness :
    xFact.2.gensRef < xFact.1.length ∧
    Factory.SetFields 1 xFact.1 xFact.2 [GoVal.vInt 7]
        [(Use (GoVal.vInt 9)).For ["X"]] ()
      = Factory.SetFields 1 xDerived.1 xDerived.2 [GoVal.vInt 7] [] () :=
  ⟨by decide,
   (C1_override_scoped 1 xFact.1 xFact.2 [GoVal.vInt 7]
      ((Use (GoVal.vInt 9)).For ["X"]) [] () xDerived.1 xDerived.2
      (by decide) rfl).1⟩

/-- C4: `Derive` never mutates its receiver — it only reads the receiver's
binding slice and allocates a fresh one, so after a successful derivation
the receiver's binding sequence reads back unchanged and population through
the receiver behaves exactly as before the derivation. -/
theorem C4_derive_does_not_mutate_receiver {σ : Type} (st : Store σ) (f : Factory)
    (ovs : List (FieldGenFunc σ)) (st' : Store σ) (g : Factory)
    (hwf : f.gensRef < st.length)
    (hd : Factory.Derive st f ovs = Except.ok (st', g)) :
    getGens st' f = getGens st f
    ∧ ∀ (fuel : Nat) (inst : List GoVal) (s : σ),
        dropStore (Factory.SetFields fuel st' f inst [] s)
          = dropStore (Factory.SetFields fuel st f inst [] s) := by
  obtain ⟨newList, heval, hst, hg⟩ := derive_ok_elim hd
  have hpres : getGens st' f = getGens st f := by
    rw [hst]; exact getGens_append_of_lt st _ f hwf
  refine ⟨hpres, ?_⟩
  intro fuel inst s
  simp only [Factory.SetFields, dropStore]
  rw [hpres]

/-- Witness for C4 at a concrete factory over a one-field struct. -/
theorem C4_derive_does_not_mutate_receiver_witness :
    xFact.2.gensRef < xFact.1.length ∧ getGens xDerived.1 xFact.2 = getGens xFact.1 xFact.2 :=
  ⟨by decide,
   (C4_derive_does_not_mutate_receiver xFact.1 xFact.2
      [(Use (GoVal.vInt 9)).For ["X"]] xDerived.1 xDerived.2 (by decide) rfl).1⟩

/-- C10: every successful `Create`/`MustCreate` result is
`instance.Interface()` of a `reflect.New` allocation: a `*T` pointer to a
struct carrying exactly the target type's fields — never a bare `T`. -/
theorem C10_create_returns_pointer {σ : Type} (fuel : Nat) (st : Store σ) (f : Factory)
    (ovs : List (FieldGenFunc σ)) (s : σ) (v : GoVal) (st' : Store σ) (s' : σ)
    (h : Factory.Create fuel st f ovs s = (CreateRes.ok v, st', s')) :
    ptrStructNames v = some (f.typ.fields.map GoField.name) := by
  unfold Factory.Create at h
  split at h
  case _ i' st'' s'' heq =>
    have hv : GoVal.vPtr (GoVal.vStruct (zipNames f.typ i')) = v :=
      CreateRes.ok.inj (congrArg Prod.fst h)
    have hlen : i'.length = f.typ.fields.length := by
      have h2 := congrArg (fun r => r.2.1) heq
      have h3 := setFields_length fuel st f (zeroInstance f.typ) ovs s
      simp only [h2] at h3
      simpa [zeroInstance] using h3
    rw [← hv]
    show some ((zipNames f.typ i').map Prod.fst) = _
    rw [zipNames_fst f.typ i' hlen]
  case _ => exact absurd (congrArg Prod.fst h) (by simp)
  case _ => exact absurd (congrArg Prod.fst h) (by simp)

/-- Witness for C10 on a concrete single-binding factory. -/
theorem C10_create_returns_pointer_witness :
    ptrStructNames (GoVal.vPtr (GoVal.vStruct [("X", GoVal.vInt 1)]))
      = some (XT.fields.map GoField.name) :=
  C10_create_returns_pointer 1 xFact.1 xFact.2 [] ()
    (GoVal.vPtr (GoVal.vStruct [("X", GoVal.vInt 1)])) xFact.1 () rfl

/-- Decomposition of a walk over a split binding list: the walk over
`xs ++ ys` runs `xs` first and continues into `ys` only when `xs`
completed normally. -/
theorem walk_append {σ : Type} (typ : GoType) (rc : RecFun σ) (d : Nat)
    (xs ys : List (FieldGen σ)) :
    ∀ (inst : List GoVal) (s : σ),
      walk typ rc d (xs ++ ys) inst s
        = match walk typ rc d xs inst s with
          | (PopResult.ok, i', s') => walk typ rc d ys i' s'
          | r => r := by
  induction xs with
  | nil => intro inst s; rfl
  | cons fg rest ih =>
    intro inst s
    simp only [List.cons_append, walk]
    split
    · rfl
    · rfl
    · split
      · rfl
      · split
        · rfl
        · exact ih ..

/-- A generator that always fails with the given error. -/
def failGen (e : GoErr) : GeneratorFunc σ := fun _ s => (GenOut.err e, s)

/-- A three-field target type `struct { A, B, C int }`. -/
def T3 : GoType :=
  GoType.mk [GoField.mk "A" GoKind.kInt true, GoField.mk "B" GoKind.kInt true,
    GoField.mk "C" GoKind.kInt true]

/-- A concrete factory over `T3` whose middle binding fails. -/
def errFact : Store Unit × Factory :=
  match NewFactory ([] : Store Unit) T3 [GoVal.vInt 0, GoVal.vInt 0, GoVal.vInt 0]
      [(Use (GoVal.vInt 1)).For ["A"], WithGen (failGen 7) ["B"],
       (Use (GoVal.vInt 3)).For ["C"]] with
  | Except.ok r => r
  | Except.error _ => ([], Factory.mk T3 0 0)

/-- The binding lists of `errFact`, split around the failing binding. -/
def c2Pre : List (FieldGen Unit) := [FieldGen.mk "A" 0 (Value (GoVal.vInt 1))]

/-- The failing binding of `errFact`. -/
def c2Bad : FieldGen Unit := FieldGen.mk "B" 1 (failGen 7)

/-- The bindings of `errFact` after the failing one. -/
def c2Post : List (FieldGen Unit) := [FieldGen.mk "C" 2 (Value (GoVal.vInt 3))]

/-- C2: when a binding's generator returns a non-nil error during a
population walk, the walk stops at that binding and returns the error:
the bindings after it never run (the result does not depend on `post`),
the fields assigned by the earlier bindings keep their values (the
instance returned is the one produced by `pre`), and the Must-variants
convert the error into a panic. -/
theorem C2_generator_error_aborts {σ : Type} (fuel' : Nat) (st : Store σ) (f : Factory)
    (pre : List (FieldGen σ)) (bad : FieldGen σ) (post : List (FieldGen σ))
    (inst i1 : List GoVal) (s s1 s2 : σ) (e : GoErr)
    (hgens : getGens st f = pre ++ bad :: post)
    (hpre : walk f.typ
        (fun c t => engine fuel' f.typ (pre ++ bad :: post) (f.callDepth + 1) c t)
        f.callDepth pre inst s = (PopResult.ok, i1, s1))
    (hbad : bad.generator
        (mkCtx f.typ
          (fun c t => engine fuel' f.typ (pre ++ bad :: post) (f.callDepth + 1) c t)
          f.callDepth bad.fieldName i1) s1 = (GenOut.err e, s2)) :
    Factory.SetFields (fuel' + 1) st f inst [] s = (PopResult.genErr e, i1, st, s2)
    ∧ Factory.MustSetFields (fuel' + 1) st f inst [] s
        = (PopResult.panicked (GoPanic.mustPanic e), i1, st, s2)
    ∧ (inst = zeroInstance f.typ →
        Factory.Create (fuel' + 1) st f [] s = (CreateRes.err e, st, s2)
        ∧ Factory.MustCreate (fuel' + 1) st f [] s
            = (CreateRes.panicked (GoPanic.mustPanic e), st, s2)) := by
  have hwalk : engine (fuel' + 1) f.typ (getGens st f) f.callDepth inst s
      = (PopResult.genErr e, i1, s2) := by
    rw [hgens]
    show walk f.typ
        (fun c t => engine fuel' f.typ (pre ++ bad :: post) (f.callDepth + 1) c t)
        f.callDepth (pre ++ bad :: post) inst s = _
    rw [walk_append, hpre]
    show walk _ _ _ (bad :: post) i1 s1 = _
    simp only [walk]
    rw [hbad]
  have hset : Factory.SetFields (fuel' + 1) st f inst [] s
      = (PopResult.genErr e, i1, st, s2) := by
    simp only [Factory.SetFields]
    rw [hwalk]
  have hmust : Factory.MustSetFields (fuel' + 1) st f inst [] s
      = (PopResult.panicked (GoPanic.mustPanic e), i1, st, s2) := by
    simp only [Factory.MustSetFields]
    rw [hset]
  refine ⟨hset, hmust, ?_⟩
  intro hz
  have hcr : Factory.Create (fuel' + 1) st f [] s = (CreateRes.err e, st, s2) := by
    simp only [Factory.Create]
    rw [← hz, hset]
  refine ⟨hcr, ?_⟩
  simp only [Factory.MustCreate]
  rw [hcr]

/-- Witness for C2 on `errFact`: A is assigned, the walk stops at B with
error 7, C never runs, and the Must-variants panic. -/
theorem C2_generator_error_aborts_witness :
    Factory.SetFields 1 errFact.1 errFact.2 (zeroInstance T3) [] ()
      = (PopResult.genErr 7, [GoVal.vInt 1, GoVal.vInt 0, GoVal.vInt 0], errFact.1, ())
    ∧ Factory.MustSetFields 1 errFact.1 errFact.2 (zeroInstance T3) [] ()
      = (PopResult.panicked (GoPanic.mustPanic 7),
         [GoVal.vInt 1, GoVal.vInt 0, GoVal.vInt 0], errFact.1, ())
    ∧ Factory.Create 1 errFact.1 errFact.2 [] () = (CreateRes.err 7, errFact.1, ())
    ∧ Factory.MustCreate 1 errFact.1 errFact.2 [] ()
      = (CreateRes.panicked (GoPanic.mustPanic 7), errFact.1, ()) := by
  have h := C2_generator_error_aborts 0 errFact.1 errFact.2 c2Pre c2Bad c2Post
    (zeroInstance T3) [GoVal.vInt 1, GoVal.vInt 0, GoVal.vInt 0] () () () 7 rfl rfl rfl
  exact ⟨h.1, h.2.1, (h.2.2 rfl).1, (h.2.2 rfl).2⟩

/-- The tree node type of the recursion tests:
`type Node struct { Children []*Node }` (the single self-referential
field suffices for the depth claim). -/
def nodeT : GoType := GoType.mk [GoField.mk "Children" GoKind.kSlice true]

/-- A self-referential generator in the style of the recursion tests: it
records the `CallDepth()` it observes, stops once the depth exceeds
`bound` (returning an empty child list), and otherwise populates one
child through the context's factory self-reference and returns it. -/
def probe (bound : Nat) : GeneratorFunc (List Nat) := fun ctx tr =>
  let tr' := tr ++ [ctx.CallDepth]
  if bound < ctx.CallDepth then (GenOut.ok (GoVal.vSlice []), tr')
  else
    match ctx.recurse (zeroInstance nodeT) tr' with
    | (PopResult.ok, child, tr'') =>
      (GenOut.ok (GoVal.vSlice [GoVal.vPtr (GoVal.vStruct (zipNames nodeT child))]), tr'')
    | (PopResult.genErr e, _, tr'') => (GenOut.err e, tr'')
    | (PopResult.panicked p, _, tr'') => (GenOut.panicked p, tr'')

/-- The binding list putting `probe` on the `Children` field. -/
def probeGens (bound : Nat) : List (FieldGen (List Nat)) :=
  [FieldGen.mk "Children" 0 (probe bound)]

/-- The nested tree value produced by `probe` when `k` more recursive
levels remain. -/
def treeVal : Nat → GoVal
  | 0 => GoVal.vSlice []
  | k + 1 => GoVal.vSlice [GoVal.vPtr (GoVal.vStruct [("Children", treeVal k)])]

theorem probe_step_terminal (bound d : Nat) (rc : RecFun (List Nat)) (inst : List GoVal)
    (tr : List Nat) (hd : bound < d + 1) :
    probe bound (mkCtx nodeT rc d "Children" inst) tr
      = (GenOut.ok (GoVal.vSlice []), tr ++ [d + 1]) := by
  simp only [probe, mkCtx, Ctx.CallDepth]
  rw [if_pos hd]

theorem probe_step_recursive (bound d : Nat) (rc : RecFun (List Nat)) (inst : List GoVal)
    (tr tr'' : List Nat) (child : List GoVal) (hd : ¬ bound < d + 1)
    (hrec : rc (zeroInstance nodeT) (tr ++ [d + 1]) = (PopResult.ok, child, tr'')) :
    probe bound (mkCtx nodeT rc d "Children" inst) tr
      = (GenOut.ok (GoVal.vSlice [GoVal.vPtr (GoVal.vStruct (zipNames nodeT child))]), tr'') := by
  simp only [probe, mkCtx, Ctx.CallDepth]
  rw [if_neg hd, hrec]

/-- One walk step of the single-binding probe factory: when the probe
returns a slice value, the walk assigns it to `Children` and completes. -/
theorem walk_probe_step (bound d : Nat) (rc : RecFun (List Nat)) (inst : List GoVal)
    (tr tr0 : List Nat) (out : List GoVal)
    (hp : probe bound (mkCtx nodeT rc d "Children" inst) tr
      = (GenOut.ok (GoVal.vSlice out), tr0)) :
    walk nodeT rc d (probeGens bound) inst tr
      = (PopResult.ok, inst.set 0 (GoVal.vSlice out), tr0) := by
  simp only [probeGens, walk]
  rw [hp]
  rfl

/-- C3: a generator observing `CallDepth()` through the context's factory
self-reference sees `d + 1` when the population walk runs at factory
depth `d`, and each nested invocation reached through `ctx.Factory` sees
exactly one more: recursing until the depth exceeds `bound` records the
depth values `d+1, d+2, ..., bound+1` in nesting order — for the
outermost call (`d = 0`) of a generator stopping above depth 5, exactly
`1,2,3,4,5`. -/
theorem C3_calldepth_sequence (bound : Nat) :
    ∀ (fuel d : Nat) (tr : List Nat),
      d ≤ bound → bound + 1 - d ≤ fuel →
      engine fuel nodeT (probeGens bound) d (zeroInstance nodeT) tr
        = (PopResult.ok, [treeVal (bound - d)],
           tr ++ List.range' (d + 1) (bound + 1 - d)) := by
  intro fuel
  induction fuel with
  | zero => intro d tr hd hf; omega
  | succ fuel' ih =>
    intro d tr hd hf
    show walk nodeT (fun c t => engine fuel' nodeT (probeGens bound) (d + 1) c t)
        d (probeGens bound) (zeroInstance nodeT) tr = _
    by_cases hdb : d = bound
    · subst hdb
      rw [walk_probe_step d d _ _ tr _ _
        (probe_step_terminal d d _ _ tr (Nat.lt_succ_self d))]
      have e1 : d + 1 - d = 1 := by omega
      have e2 : d - d = 0 := by omega
      rw [e1, e2]
      rfl
    · have hlt : d < bound := lt_of_le_of_ne hd hdb
      have hrec := ih (d + 1) (tr ++ [d + 1]) (by omega) (by omega)
      have e1 : bound + 1 - (d + 1) = bound - d := by omega
      rw [e1] at hrec
      rw [walk_probe_step bound d _ _ tr _ _
        (probe_step_recursive bound d _ _ tr _ _ (by omega) hrec)]
      have e4 : bound - (d + 1) = bound - d - 1 := by omega
      have e2 : bound - d = (bound - d - 1) + 1 := by omega
      have hval : GoVal.vSlice [GoVal.vPtr (GoVal.vStruct
          (zipNames nodeT [treeVal (bound - (d + 1))]))] = treeVal (bound - d) := by
        rw [e4]
        conv_rhs => rw [e2]
        rfl
      have e3 : bound + 1 - d = (bound - d) + 1 := by omega
      rw [hval, e3, List.range'_succ, List.append_assoc]
      rfl

/-- Witness for C3: the outermost call of a probe stopping above depth 4
observes exactly the depths 1,2,3,4,5. -/
theorem C3_calldepth_sequence_witness :
    engine 5 nodeT (probeGens 4) 0 (zeroInstance nodeT) []
      = (PopResult.ok, [treeVal 4], [1, 2, 3, 4, 5]) :=
  C3_calldepth_sequence 4 5 0 [] (by decide) (by decide)

/-- A throwaway generator context over counter state. -/
def dummyCtxNat : Ctx Nat :=
  Ctx.mk "" GoVal.vNil 0 (fun c s => (PopResult.ok, c, s))

theorem seqSelect_outputs (options : List GoVal) (c : Ctx Nat) (h : 0 < options.length) :
    ∀ (m n : Nat),
      (genOutputs (SeqSelect options) c n m).1
        = (List.range' n m).map
            (fun i => GenOut.ok (options.getD (i % options.length) GoVal.vNil)) := by
  intro m
  induction m with
  | zero => intro n; rfl
  | succ m' ih =>
    intro n
    have hnz : ¬ options.length = 0 := Nat.pos_iff_ne_zero.mp h
    have hmod : n % options.length < options.length := Nat.mod_lt n h
    have hg : options.get? (n % options.length)
        = some (options.getD (n % options.length) GoVal.vNil) := by
      rw [List.get?_eq_getElem?, List.getD_eq_getElem?_getD, List.getElem?_eq_getElem hmod]
      rfl
    simp only [genOutputs, SeqSelect, Select, Seq]
    rw [if_neg hnz]
    simp only []
    rw [hg]
    simp only [List.range'_succ, List.map_cons]
    refine congrArg (fun l => GenOut.ok (options.getD (n % options.length) GoVal.vNil) :: l) ?_
    exact ih (n + 1)

/-- C6: the round-robin selection generator `SeqSelect` (Select composed
with Seq) starts at index 0 and cycles deterministically modulo the option
count: from a fresh counter, the i-th invocation (0-based) of the same
generator instance yields `options[i % N]`; over `N + k` calls this is
`opt[0] … opt[N-1] opt[0] … opt[k-1]`. -/
theorem C6_seqselect_roundrobin (options : List GoVal) (c : Ctx Nat) (m : Nat)
    (h : 0 < options.length) :
    (genOutputs (SeqSelect options) c 0 m).1
      = (List.range m).map
          (fun i => GenOut.ok (options.getD (i % options.length) GoVal.vNil)) := by
  rw [List.range_eq_range']
  exact seqSelect_outputs options c h m 0

/-- Witness for C6: options `[A,B,C]`, 7 calls, yields `A,B,C,A,B,C,A`. -/
theorem C6_seqselect_roundrobin_witness :
    (genOutputs (SeqSelect [GoVal.vStr "A", GoVal.vStr "B", GoVal.vStr "C"])
        dummyCtxNat 0 7).1
      = [GenOut.ok (GoVal.vStr "A"), GenOut.ok (GoVal.vStr "B"), GenOut.ok (GoVal.vStr "C"),
         GenOut.ok (GoVal.vStr "A"), GenOut.ok (GoVal.vStr "B"), GenOut.ok (GoVal.vStr "C"),
         GenOut.ok (GoVal.vStr "A")] :=
  (C6_seqselect_roundrobin [GoVal.vStr "A", GoVal.vStr "B", GoVal.vStr "C"]
    dummyCtxNat 7 (by decide)).trans rfl

/-- The crash-test target type
`type S struct { PStr *string; Slice []int; Map map[int]string }`. -/
def ST : GoType :=
  GoType.mk [GoField.mk "PStr" GoKind.kPtr true, GoField.mk "Slice" GoKind.kSlice true,
    GoField.mk "Map" GoKind.kMap true]

/-- A factory over `ST` binding the constant `nil` generator to `PStr`
(as `Use(nil).For("PStr")` does). -/
def nilFact : Store Unit × Factory :=
  match NewFactory ([] : Store Unit) ST [GoVal.vNil, GoVal.vNil, GoVal.vNil]
      [(Use GoVal.vNil).For ["PStr"]] with
  | Except.ok r => r
  | Except.error _ => ([], Factory.mk ST 0 0)

/-- An `S` instance previously holding a non-nil pointer and a non-empty
map (the crash test's starting state). -/
def c7Inst : List GoVal :=
  [GoVal.vPtr (GoVal.vStr "foo"), GoVal.vNil, GoVal.vMap [(GoVal.vInt 1, GoVal.vStr "foo")]]

/-- C7 (behaviour of the provided source at the claim's input): `Value nil`
is indeed a constant generator returning the nil interface value with a
nil error; but the population walk of the provided `setFields` does not
special-case a nil generator result — `reflect.ValueOf(nil)` is the zero
`Value` and `field.Set` panics on it — so populating `PStr` with the nil
binding panics instead of clearing the field (the field keeps its old
value and the repository's own crash test would fail). -/
theorem C7_nil_value_panics :
    (∀ (σ : Type) (c : Ctx σ) (s : σ), Value GoVal.vNil c s = (GenOut.ok GoVal.vNil, s))
    ∧ Factory.SetFields 1 nilFact.1 nilFact.2 c7Inst [] ()
        = (PopResult.panicked GoPanic.setZeroValue, c7Inst, nilFact.1, ()) :=
  ⟨fun _ _ _ => rfl, rfl⟩

/-- A field name is invalid for a target type when it resolves to no field
at all, or to a field that cannot be set (unexported). -/
def badFieldName (typ : GoType) (name : String) : Prop :=
  findField 0 typ.fields name = none ∨
  ∃ i fld, findField 0 typ.fields name = some (i, fld) ∧ fld.exported = false

theorem evalFGFs_error_of_mem {σ : Type} (typ : GoType) (bad : FieldGenFunc σ)
    (p0 : GoPanic) (hb : bad typ = Except.error p0) (post : List (FieldGenFunc σ)) :
    ∀ (pre : List (FieldGenFunc σ)),
      ∃ p, evalFGFs typ (pre ++ bad :: post) = Except.error p := by
  intro pre
  induction pre with
  | nil =>
    refine ⟨p0, ?_⟩
    simp only [List.nil_append, evalFGFs]
    rw [hb]
  | cons a rest ih =>
    obtain ⟨p, hp⟩ := ih
    simp only [List.cons_append, evalFGFs]
    cases ha : a typ with
    | error q => exact ⟨q, rfl⟩
    | ok l =>
      refine ⟨p, ?_⟩
      show (match evalFGFs typ (rest ++ bad :: post) with
        | Except.error p => Except.error p
        | Except.ok b => Except.ok (l ++ b)) = Except.error p
      rw [hp]

/-- C8: a binding naming a field that does not exist on the target type,
or an unexported field, panics at the moment the binding is attached —
inside `WithGen` validation, hence at construction (`NewFactory`), at
`Derive`, and at per-call override resolution (`SetFields`/`Create` with
overrides) — before any generator is invoked or any field assigned: the
instance, store and generator state come back untouched and no populated
instance is produced. -/
theorem C8_bad_field_fails_fast {σ : Type} (g : GeneratorFunc σ) (typ : GoType)
    (name : String) (hbad : badFieldName typ name) :
    (∃ p, WithGen g [name] typ = Except.error p)
    ∧ (∀ (st : Store σ) (proto : List GoVal) (pre post : List (FieldGenFunc σ)),
        ∃ p, NewFactory st typ proto (pre ++ WithGen g [name] :: post) = Except.error p)
    ∧ (∀ (st : Store σ) (f : Factory), f.typ = typ →
        ∀ (pre post : List (FieldGenFunc σ)),
          ∃ p, Factory.Derive st f (pre ++ WithGen g [name] :: post) = Except.error p)
    ∧ (∀ (fuel : Nat) (st : Store σ) (f : Factory), f.typ = typ →
        ∀ (inst : List GoVal) (s : σ) (pre post : List (FieldGenFunc σ)),
          ∃ p, Factory.SetFields fuel st f inst (pre ++ WithGen g [name] :: post) s
            = (PopResult.panicked p, inst, st, s))
    ∧ (∀ (fuel : Nat) (st : Store σ) (f : Factory), f.typ = typ →
        ∀ (s : σ) (pre post : List (FieldGenFunc σ)),
          ∃ p, Factory.Create fuel st f (pre ++ WithGen g [name] :: post) s
            = (CreateRes.panicked p, st, s)) := by
  have hbase : ∃ p0, WithGen g [name] typ = Except.error p0 := by
    cases hbad with
    | inl h =>
      refine ⟨GoPanic.fieldNotFound name, ?_⟩
      simp only [WithGen, withGenAux]
      rw [h]
    | inr h =>
      obtain ⟨i, fld, hf, hexp⟩ := h
      refine ⟨GoPanic.fieldCannotBeSet name, ?_⟩
      simp only [WithGen, withGenAux]
      rw [hf]
      simp [hexp]
  obtain ⟨p0, hb⟩ := hbase
  have hderive : ∀ (st : Store σ) (f : Factory), f.typ = typ →
      ∀ (pre post : List (FieldGenFunc σ)),
        ∃ p, Factory.Derive st f (pre ++ WithGen g [name] :: post) = Except.error p := by
    intro st f hf pre post
    obtain ⟨p, hp⟩ := evalFGFs_error_of_mem typ (WithGen g [name]) p0 hb post pre
    refine ⟨p, ?_⟩
    simp only [Factory.Derive, hf, hp]
  have hsetf : ∀ (fuel : Nat) (st : Store σ) (f : Factory), f.typ = typ →
      ∀ (inst : List GoVal) (s : σ) (pre post : List (FieldGenFunc σ)),
        ∃ p, Factory.SetFields fuel st f inst (pre ++ WithGen g [name] :: post) s
          = (PopResult.panicked p, inst, st, s) := by
    intro fuel st f hf inst s pre post
    obtain ⟨p, hp⟩ := hderive st f hf pre post
    refine ⟨p, ?_⟩
    cases hl : pre ++ WithGen g [name] :: post with
    | nil => exact absurd hl (by simp)
    | cons a l =>
      rw [hl] at hp
      simp only [Factory.SetFields, hp]
  refine ⟨⟨p0, hb⟩, ?_, hderive, hsetf, ?_⟩
  · intro st proto pre post
    obtain ⟨p, hp⟩ := evalFGFs_error_of_mem typ (WithGen g [name]) p0 hb post
      (ProtoGens typ proto ++ pre)
    refine ⟨p, ?_⟩
    rw [List.append_assoc] at hp
    simp only [NewFactory, hp]
  · intro fuel st f hf s pre post
    obtain ⟨p, hp⟩ := hsetf fuel st f hf (zeroInstance f.typ) s pre post
    refine ⟨p, ?_⟩
    simp only [Factory.Create, hp]

/-- Witness for C8: the field name Nope exists nowhere on `XT`; attaching
it panics at construction and at per-call override resolution. -/
theorem C8_bad_field_fails_fast_witness :
    (∃ p, WithGen (Value (GoVal.vInt 0) : GeneratorFunc Unit) ["Nope"] XT = Except.error p)
    ∧ (∃ p, NewFactory ([] : Store Unit) XT [GoVal.vInt 0]
        [WithGen (Value (GoVal.vInt 0)) ["Nope"]] = Except.error p)
    ∧ (∃ p, Factory.SetFields 1 xFact.1 xFact.2 [GoVal.vInt 0]
        [WithGen (Value (GoVal.vInt 0)) ["Nope"]] ()
          = (PopResult.panicked p, [GoVal.vInt 0], xFact.1, ())) := by
  have h := C8_bad_field_fails_fast (Value (GoVal.vInt 0) : GeneratorFunc Unit) XT "Nope"
    (Or.inl (by decide))
  exact ⟨h.1, h.2.1 [] [GoVal.vInt 0] [] [], h.2.2.2.1 1 xFact.1 xFact.2 rfl [GoVal.vInt 0] () [] []⟩

/-- Specification-side description of phase 1 of `Derive` (following the
amended wording): walking the original bindings, the first binding carrying
an overridden name (not yet in `seen`) gets the override's generator;
later bindings with the same name are kept unchanged. -/
def replaceFirst (seen : List String) : List (FieldGen σ) → GenMap σ → List (FieldGen σ)
  | [], _ => []
  | fg :: rest, m =>
    if fg.fieldName ∈ seen then fg :: replaceFirst seen rest m
    else
      match mapLookup m fg.fieldName with
      | some g => { fg with generator := g } :: replaceFirst (fg.fieldName :: seen) rest m
      | none => fg :: replaceFirst seen rest m

/-- Delete every entry whose key occurs in `seen`. -/
def mapDeleteAll : GenMap σ → List String → GenMap σ
  | [], _ => []
  | p :: rest, seen =>
    if p.1 ∈ seen then mapDeleteAll rest seen else p :: mapDeleteAll rest seen

theorem mapDeleteAll_nil (m : GenMap σ) : mapDeleteAll m [] = m := by
  induction m with
  | nil => rfl
  | cons p rest ih =>
    simp only [mapDeleteAll]
    rw [if_neg (List.not_mem_nil p.1), ih]

theorem mapLookup_deleteAll_of_mem (m : GenMap σ) (seen : List String) (k : String)
    (hk : k ∈ seen) : mapLookup (mapDeleteAll m seen) k = none := by
  induction m with
  | nil => rfl
  | cons p rest ih =>
    simp only [mapDeleteAll]
    by_cases hp : p.1 ∈ seen
    · rw [if_pos hp]; exact ih
    · rw [if_neg hp]
      simp only [mapLookup]
      rw [if_neg (by intro h; exact hp (by rw [h]; exact hk))]
      exact ih

theorem mapLookup_deleteAll_of_not_mem (m : GenMap σ) (seen : List String) (k : String)
    (hk : k ∉ seen) : mapLookup (mapDeleteAll m seen) k = mapLookup m k := by
  induction m with
  | nil => rfl
  | cons p rest ih =>
    simp only [mapDeleteAll, mapLookup]
    by_cases hp : p.1 ∈ seen
    · rw [if_pos hp, if_neg (by intro h; exact hk (by rw [← h]; exact hp)), ih]
    · rw [if_neg hp]
      simp only [mapLookup]
      by_cases hpk : p.1 = k
      · rw [if_pos hpk, if_pos hpk]
      · rw [if_neg hpk, if_neg hpk, ih]

theorem mapDelete_deleteAll (m : GenMap σ) (seen : List String) (k : String) :
    mapDelete (mapDeleteAll m seen) k = mapDeleteAll m (k :: seen) := by
  induction m with
  | nil => rfl
  | cons p rest ih =>
    simp only [mapDeleteAll]
    by_cases hp : p.1 ∈ seen
    · rw [if_pos hp, if_pos (List.mem_cons_of_mem k hp)]
      exact ih
    · rw [if_neg hp]
      by_cases hpk : p.1 = k
      · rw [if_pos (hpk ▸ List.mem_cons_self ..)]
        simp only [mapDelete]
        rw [if_pos hpk]
        exact ih
      · rw [if_neg (by simp [hpk, hp])]
        simp only [mapDelete]
        rw [if_neg hpk, ih]

theorem mapDeleteAll_congr (m : GenMap σ) (s1 s2 : List String)
    (h : ∀ p ∈ m, p.1 ∈ s1 ↔ p.1 ∈ s2) : mapDeleteAll m s1 = mapDeleteAll m s2 := by
  induction m with
  | nil => rfl
  | cons p rest ih =>
    have hp := h p (List.mem_cons_self ..)
    have ih' := ih (fun q hq => h q (List.mem_cons_of_mem _ hq))
    simp only [mapDeleteAll]
    by_cases h1 : p.1 ∈ s1
    · rw [if_pos h1, if_pos (hp.mp h1), ih']
    · rw [if_neg h1, if_neg (fun h2 => h1 (hp.mpr h2)), ih']

theorem mapLookup_none_keys (m : GenMap σ) (k : String)
    (h : mapLookup m k = none) : ∀ p ∈ m, p.1 ≠ k := by
  induction m with
  | nil => intro p hp; exact absurd hp (List.not_mem_nil p)
  | cons q rest ih =>
    intro p hp
    simp only [mapLookup] at h
    by_cases hq : q.1 = k
    · rw [if_pos hq] at h; exact absurd h (by simp)
    · rw [if_neg hq] at h
      rcases List.mem_cons.mp hp with h1 | h1
      · rw [h1]; exact hq
      · exact ih h p h1

/-- Phase 1 of `Derive` computed on a map with the `seen` keys already
deleted is exactly the first-occurrence replacement, and the residual map
has additionally lost every key occurring in the original binding list. -/
theorem phase1_deleteAll (orig : List (FieldGen σ)) :
    ∀ (m : GenMap σ) (seen : List String),
      phase1 orig (mapDeleteAll m seen)
        = (replaceFirst seen orig m,
           mapDeleteAll m (seen ++ orig.map (fun fg => fg.fieldName))) := by
  induction orig with
  | nil =>
    intro m seen
    simp only [phase1, replaceFirst, List.map_nil, List.append_nil]
  | cons fg rest ih =>
    intro m seen
    simp only [phase1, replaceFirst, List.map_cons]
    by_cases hs : fg.fieldName ∈ seen
    · rw [mapLookup_deleteAll_of_mem m seen _ hs]
      simp only []
      rw [if_pos hs, ih m seen]
      refine congrArg (fun r => (fg :: replaceFirst seen rest m, r)) ?_
      refine mapDeleteAll_congr m _ _ ?_
      intro p _
      constructor
      · intro h1
        rcases List.mem_append.mp h1 with h2 | h2
        · exact List.mem_append.mpr (Or.inl h2)
        · exact List.mem_append.mpr (Or.inr (List.mem_cons_of_mem _ h2))
      · intro h1
        rcases List.mem_append.mp h1 with h2 | h2
        · exact List.mem_append.mpr (Or.inl h2)
        · rcases List.mem_cons.mp h2 with h3 | h3
          · exact List.mem_append.mpr (Or.inl (h3 ▸ hs))
          · exact List.mem_append.mpr (Or.inr h3)
    · rw [mapLookup_deleteAll_of_not_mem m seen _ hs, if_neg hs]
      cases hml : mapLookup m fg.fieldName with
      | some g =>
        simp only []
        rw [mapDelete_deleteAll m seen fg.fieldName, ih m (fg.fieldName :: seen)]
        refine congrArg
          (fun r => ({ fg with generator := g } :: replaceFirst (fg.fieldName :: seen) rest m, r)) ?_
        refine mapDeleteAll_congr m _ _ ?_
        intro p _
        simp only [List.mem_append, List.mem_cons]
        constructor
        · rintro (⟨h1 | h1⟩ | h1)
          · exact Or.inr (Or.inl h1)
          · exact Or.inl h1
          · exact Or.inr (Or.inr h1)
        · rintro (h1 | h1 | h1)
          · exact Or.inl (Or.inr h1)
          · exact Or.inl (Or.inl h1)
          · exact Or.inr h1
      | none =>
        simp only []
        rw [ih m seen]
        refine congrArg (fun r => (fg :: replaceFirst seen rest m, r)) ?_
        have hkeys := mapLookup_none_keys m fg.fieldName hml
        refine mapDeleteAll_congr m _ _ ?_
        intro p hp
        have hne := hkeys p hp
        simp only [List.mem_append, List.mem_cons]
        constructor
        · rintro (h1 | h1)
          · exact Or.inl h1
          · exact Or.inr (Or.inr h1)
        · rintro (h1 | h1 | h1)
          · exact Or.inl h1
          · exact absurd h1 hne
          · exact Or.inr h1

theorem mapLookup_insert (m : GenMap σ) (k k' : String) (g : GeneratorFunc σ) :
    mapLookup (mapInsert m k g) k' = if k = k' then some g else mapLookup m k' := by
  induction m with
  | nil =>
    simp only [mapInsert, mapLookup]
  | cons p rest ih =>
    simp only [mapInsert]
    by_cases hp : p.1 = k
    · rw [if_pos hp]
      simp only [mapLookup]
      by_cases h : k = k'
      · rw [if_pos h, if_pos h]
      · rw [if_neg h, if_neg h, if_neg (fun hh => h (hp ▸ hh))]
    · rw [if_neg hp]
      simp only [mapLookup]
      by_cases hpk : p.1 = k'
      · rw [if_pos hpk, if_neg (fun h => hp (by rw [h]; exact hpk)), if_pos hpk]
      · rw [if_neg hpk, ih]
        by_cases h : k = k'
        · rw [if_pos h, if_pos h]
        · rw [if_neg h, if_neg h, if_neg hpk]

theorem mapLookup_foldl_insert_isSome (l : List (FieldGen σ)) :
    ∀ (m : GenMap σ) (k : String),
      (mapLookup (l.foldl (fun m fg => mapInsert m fg.fieldName fg.generator) m) k).isSome
        = ((mapLookup m k).isSome || l.any (fun fg => decide (fg.fieldName = k))) := by
  induction l with
  | nil => intro m k; simp
  | cons fg rest ih =>
    intro m k
    simp only [List.foldl_cons, List.any_cons]
    rw [ih]
    by_cases h : fg.fieldName = k
    · rw [mapLookup_insert, if_pos h]
      simp [h]
    · rw [mapLookup_insert, if_neg h]
      simp [h]

theorem buildMap_lookup_isSome (l : List (FieldGen σ)) (k : String) :
    (mapLookup (buildMap l) k).isSome = l.any (fun fg => decide (fg.fieldName = k)) := by
  unfold buildMap
  rw [mapLookup_foldl_insert_isSome]
  rfl

/-- The binding list of a derived factory, characterised: the original
bindings with the first occurrence of each overridden name replaced, then
the override bindings whose names named no original binding, in override
order. -/
theorem deriveGens_characterization (orig newList : List (FieldGen σ)) :
    deriveGens orig newList
      = replaceFirst [] orig (buildMap newList)
        ++ newList.filter
            (fun fg => !(orig.any (fun o => decide (o.fieldName = fg.fieldName)))) := by
  have hp := phase1_deleteAll orig (buildMap newList) []
  rw [mapDeleteAll_nil] at hp
  have h1 : (phase1 orig (buildMap newList)).1 = replaceFirst [] orig (buildMap newList) := by
    rw [hp]
  have h2 : (phase1 orig (buildMap newList)).2
      = mapDeleteAll (buildMap newList) ([] ++ orig.map (fun fg => fg.fieldName)) := by
    rw [hp]
  show (phase1 orig (buildMap newList)).1
      ++ newList.filter
          (fun fg => (mapLookup (phase1 orig (buildMap newList)).2 fg.fieldName).isSome) = _
  rw [h1, h2]
  refine congrArg (fun l => replaceFirst [] orig (buildMap newList) ++ l) ?_
  refine List.filter_congr ?_
  intro fg hfg
  by_cases hin : fg.fieldName ∈ orig.map (fun o => o.fieldName)
  · rw [mapLookup_deleteAll_of_mem _ _ _ (by simpa using hin)]
    have : orig.any (fun o => decide (o.fieldName = fg.fieldName)) = true := by
      rcases List.mem_map.mp hin with ⟨o, ho, hoe⟩
      exact List.any_eq_true.mpr ⟨o, ho, by simp [hoe]⟩
    rw [this]
    rfl
  · rw [mapLookup_deleteAll_of_not_mem _ _ _ (by simpa using hin)]
    rw [buildMap_lookup_isSome]
    have h1 : newList.any (fun x => decide (x.fieldName = fg.fieldName)) = true :=
      List.any_eq_true.mpr ⟨fg, hfg, by simp⟩
    have h2 : orig.any (fun o => decide (o.fieldName = fg.fieldName)) = false := by
      rw [List.any_eq_false]
      intro o ho
      simp only [decide_eq_true_eq]
      intro he
      exact hin (List.mem_map.mpr ⟨o, ho, he⟩)
    rw [h1, h2]
    rfl

/-- C5 (amended): `a.Derive(o)` returns a new factory whose binding
sequence equals `a`'s, except that only the FIRST binding carrying an
overridden field name has its generator replaced in place (by the last
override supplied for that name); later bindings with the same name keep
their generators; and every override naming a field not present anywhere
in `a`'s bindings is appended at the end, in override order. -/
theorem C5_derive_override_semantics {σ : Type} (st : Store σ) (f : Factory)
    (ovs : List (FieldGenFunc σ)) (newList : List (FieldGen σ))
    (st' : Store σ) (g : Factory)
    (he : evalFGFs f.typ ovs = Except.ok newList)
    (hd : Factory.Derive st f ovs = Except.ok (st', g)) :
    getGens st' g
      = replaceFirst [] (getGens st f) (buildMap newList)
        ++ newList.filter
            (fun fg => !((getGens st f).any (fun o => decide (o.fieldName = fg.fieldName)))) := by
  obtain ⟨nl2, he2, hst, hg⟩ := derive_ok_elim hd
  rw [he] at he2
  have hnl : nl2 = newList := (Except.ok.inj he2).symm
  subst hnl
  rw [hst, hg, getGens_alloc_self]
  exact deriveGens_characterization (getGens st f) nl2

/-- A factory over `XT` with two bindings for the same field `X`
(reachable e.g. as a prototype-seeded binding plus an explicit one). -/
def dupFact : Store Unit × Factory :=
  match NewFactory ([] : Store Unit) XT [GoVal.vInt 0]
      [(Use (GoVal.vInt 1)).For ["X"], (Use (GoVal.vInt 2)).For ["X"]] with
  | Except.ok r => r
  | Except.error _ => ([], Factory.mk XT 0 0)

/-- `dupFact` derived with the override `Use(9).For("X")`. -/
def dupDerived : Store Unit × Factory :=
  match Factory.Derive dupFact.1 dupFact.2 [(Use (GoVal.vInt 9)).For ["X"]] with
  | Except.ok r => r
  | Except.error _ => ([], Factory.mk XT 0 0)

/-- A throwaway generator context over trivial state. -/
def dummyCtxUnit : Ctx Unit :=
  Ctx.mk "" GoVal.vNil 0 (fun c s => (PopResult.ok, c, s))

/-- Witness for the amended C5 on `dupFact`. -/
theorem C5_derive_override_semantics_witness :
    getGens dupDerived.1 dupDerived.2
      = replaceFirst [] (getGens dupFact.1 dupFact.2)
          (buildMap [FieldGen.mk "X" 0 (Value (GoVal.vInt 9))])
        ++ [FieldGen.mk "X" 0 (Value (GoVal.vInt 9))].filter
            (fun fg => !((getGens dupFact.1 dupFact.2).any
              (fun o => decide (o.fieldName = fg.fieldName)))) :=
  C5_derive_override_semantics dupFact.1 dupFact.2 [(Use (GoVal.vInt 9)).For ["X"]]
    [FieldGen.mk "X" 0 (Value (GoVal.vInt 9))] dupDerived.1 dupDerived.2 rfl rfl

/-- Counterexample to C5 as stated: deriving a factory holding TWO
bindings for field `X` (generators 1 and 2) with the override 9 replaces
only the first binding — the second still generates 2, not 9, and the
derived factory populates `X` with 2, so not "every binding whose field
name is named by an override has its generator replaced". -/
theorem C5_counterexample :
    ((getGens dupDerived.1 dupDerived.2).map
        (fun fg => (fg.generator dummyCtxUnit ()).1))
      = [GenOut.ok (GoVal.vInt 9), GenOut.ok (GoVal.vInt 2)]
    ∧ (Value (GoVal.vInt 9) dummyCtxUnit ()).1 = GenOut.ok (GoVal.vInt 9)
    ∧ GenOut.ok (GoVal.vInt 2) ≠ GenOut.ok (GoVal.vInt 9)
    ∧ Factory.Create 1 dupDerived.1 dupDerived.2 [] ()
        = (CreateRes.ok (GoVal.vPtr (GoVal.vStruct [("X", GoVal.vInt 2)])),
           dupDerived.1, ()) := by
  refine ⟨rfl, rfl, ?_, rfl⟩
  intro h
  exact absurd (GoVal.vInt.inj (GenOut.ok.inj h)) (by decide)

/-- The bindings `ProtoGens` amounts to after evaluation: one constant
binding per exported, non-zero prototype field, at that field's index, in
declaration order. -/
def protoBindingsSpec (typ : GoType) (proto : List GoVal) : List (FieldGen σ) :=
  (List.enumFrom 0 (typ.fields.zip proto)).filterMap fun q =>
    if q.2.1.exported = true ∧ isZero q.2.1.kind q.2.2 = false
    then some (FieldGen.mk q.2.1.name q.1 (Value q.2.2))
    else none

theorem findField_aux (name : String) :
    ∀ (flds : List GoField) (k j : Nat) (fld : GoField),
      flds.get? j = some fld → fld.name = name →
      (flds.map GoField.name).Nodup →
      findField k flds name = some (k + j, fld) := by
  intro flds
  induction flds with
  | nil => intro k j fld hj; exact absurd hj (by simp)
  | cons f rest ih =>
    intro k j fld hj hname hnd
    cases j with
    | zero =>
      have hf : f = fld := by simpa using hj
      subst hf
      simp only [findField]
      rw [if_pos hname]
      rfl
    | succ j' =>
      have hj' : rest.get? j' = some fld := by simpa using hj
      rw [List.map_cons, List.nodup_cons] at hnd
      have hne : ¬ f.name = name := by
        intro h
        exact hnd.1
          (List.mem_map.mpr ⟨fld, List.get?_mem hj', hname.trans h.symm⟩)
      simp only [findField]
      rw [if_neg hne, ih (k + 1) j' fld hj' hname hnd.2]
      have : k + 1 + j' = k + (j' + 1) := by omega
      rw [this]

/-- Evaluating the prototype-derived bindings of a suffix of the zipped
field/value list, at its field offset. -/
theorem protoGens_eval_aux {σ : Type} (typ : GoType)
    (hnd : (typ.fields.map GoField.name).Nodup) :
    ∀ (w : List (GoField × GoVal)) (k : Nat),
      (∀ (j : Nat) (p : GoField × GoVal),
        w.get? j = some p → typ.fields.get? (k + j) = some p.1) →
      evalFGFs typ
          (w.filterMap (fun p =>
            if p.1.exported = true ∧ isZero p.1.kind p.2 = false
            then some ((Use p.2).For [p.1.name])
            else none))
        = Except.ok
            ((List.enumFrom k w).filterMap (fun q =>
              if q.2.1.exported = true ∧ isZero q.2.1.kind q.2.2 = false
              then some (FieldGen.mk q.2.1.name q.1 (@Value σ q.2.2))
              else none)) := by
  intro w
  induction w with
  | nil => intro k hget; rfl
  | cons p w' ih =>
    intro k hget
    have hget0 : typ.fields.get? k = some p.1 := by
      have := hget 0 p rfl
      simpa using this
    have hshift : ∀ (j : Nat) (q : GoField × GoVal),
        w'.get? j = some q → typ.fields.get? (k + 1 + j) = some q.1 := by
      intro j q hq
      have h1 := hget (j + 1) q (by simpa using hq)
      have h2 : k + (j + 1) = k + 1 + j := by omega
      rw [h2] at h1
      exact h1
    by_cases hc : (p.1.exported = true ∧ isZero p.1.kind p.2 = false)
    · have hfc : (fun p : GoField × GoVal =>
          if p.1.exported = true ∧ isZero p.1.kind p.2 = false
          then some (((Use p.2).For [p.1.name] : FieldGenFunc σ))
          else none) p
            = some (((Use p.2).For [p.1.name] : FieldGenFunc σ)) := if_pos hc
      have hsc : (fun q : Nat × (GoField × GoVal) =>
          if q.2.1.exported = true ∧ isZero q.2.1.kind q.2.2 = false
          then some (FieldGen.mk q.2.1.name q.1 (@Value σ q.2.2))
          else none) (k, p)
            = some (FieldGen.mk p.1.name k (Value p.2)) := if_pos hc
      rw [@List.filterMap_cons_some (GoField × GoVal) (FieldGenFunc σ)
            (fun p : GoField × GoVal =>
              if p.1.exported = true ∧ isZero p.1.kind p.2 = false
              then some (((Use p.2).For [p.1.name] : FieldGenFunc σ))
              else none) p w' _ hfc,
          List.enumFrom_cons,
          @List.filterMap_cons_some (Nat × (GoField × GoVal)) (FieldGen σ)
            (fun q : Nat × (GoField × GoVal) =>
              if q.2.1.exported = true ∧ isZero q.2.1.kind q.2.2 = false
              then some (FieldGen.mk q.2.1.name q.1 (@Value σ q.2.2))
              else none) (k, p) (List.enumFrom (k + 1) w') _ hsc]
      have hw : ((Use p.2).For [p.1.name] : FieldGenFunc σ) typ
          = Except.ok [FieldGen.mk p.1.name k (Value p.2)] := by
        show withGenAux (Value p.2) [p.1.name] typ = _
        have hff : findField 0 typ.fields p.1.name = some (0 + k, p.1) :=
          findField_aux p.1.name typ.fields 0 k p.1 hget0 rfl hnd
        rw [Nat.zero_add] at hff
        simp only [withGenAux]
        rw [hff]
        simp [hc.1, withGenAux]
      simp only [evalFGFs]
      rw [hw, ih (k + 1) hshift]
      rfl
    · have hfc : (fun p : GoField × GoVal =>
          if p.1.exported = true ∧ isZero p.1.kind p.2 = false
          then some (((Use p.2).For [p.1.name] : FieldGenFunc σ))
          else none) p = none := if_neg hc
      have hsc : (fun q : Nat × (GoField × GoVal) =>
          if q.2.1.exported = true ∧ isZero q.2.1.kind q.2.2 = false
          then some (FieldGen.mk q.2.1.name q.1 (@Value σ q.2.2))
          else none) (k, p) = none := if_neg hc
      rw [@List.filterMap_cons_none (GoField × GoVal) (FieldGenFunc σ)
            (fun p : GoField × GoVal =>
              if p.1.exported = true ∧ isZero p.1.kind p.2 = false
              then some (((Use p.2).For [p.1.name] : FieldGenFunc σ))
              else none) p w' hfc,
          List.enumFrom_cons,
          @List.filterMap_cons_none (Nat × (GoField × GoVal)) (FieldGen σ)
            (fun q : Nat × (GoField × GoVal) =>
              if q.2.1.exported = true ∧ isZero q.2.1.kind q.2.2 = false
              then some (FieldGen.mk q.2.1.name q.1 (@Value σ q.2.2))
              else none) (k, p) (List.enumFrom (k + 1) w') hsc]
      exact ih (k + 1) hshift

theorem evalFGFs_append_ok {σ : Type} (typ : GoType) :
    ∀ (l1 l2 : List (FieldGenFunc σ)) (a b : List (FieldGen σ)),
      evalFGFs typ l1 = Except.ok a → evalFGFs typ l2 = Except.ok b →
      evalFGFs typ (l1 ++ l2) = Except.ok (a ++ b) := by
  intro l1
  induction l1 with
  | nil =>
    intro l2 a b h1 h2
    have ha : a = [] := (Except.ok.inj h1).symm
    subst ha
    simpa using h2
  | cons f rest ih =>
    intro l2 a b h1 h2
    simp only [evalFGFs] at h1
    cases hf : f typ with
    | error p => rw [hf] at h1; exact absurd h1 (by simp)
    | ok x =>
      rw [hf] at h1
      cases hr : evalFGFs typ rest with
      | error p => rw [hr] at h1; exact absurd h1 (by simp)
      | ok y =>
        rw [hr] at h1
        have ha : a = x ++ y := (Except.ok.inj h1).symm
        subst ha
        simp only [List.cons_append, evalFGFs]
        rw [hf]
        show (match evalFGFs typ (rest ++ l2) with
          | Except.error p => Except.error p
          | Except.ok c => Except.ok (x ++ c)) = Except.ok (x ++ y ++ b)
        rw [ih l2 y b hr h2, List.append_assoc]

/-- The user type of the factory tests, unexported fields included:
`type User struct { ID, Username, FirstName, LastName, Email string;
Age int; Married bool; Address *Address; i int; s string }`. -/
def UserT : GoType :=
  GoType.mk [GoField.mk "ID" GoKind.kStr true, GoField.mk "Username" GoKind.kStr true,
    GoField.mk "FirstName" GoKind.kStr true, GoField.mk "LastName" GoKind.kStr true,
    GoField.mk "Email" GoKind.kStr true, GoField.mk "Age" GoKind.kInt true,
    GoField.mk "Married" GoKind.kBool true, GoField.mk "Address" GoKind.kPtr true,
    GoField.mk "i" GoKind.kInt false, GoField.mk "s" GoKind.kStr false]

/-- The prototype `User{Age: 45, Married: true, i: 5}` — the unexported
field `i` also holds a non-zero value. -/
def protoUser : List GoVal :=
  [GoVal.vStr "", GoVal.vStr "", GoVal.vStr "", GoVal.vStr "", GoVal.vStr "",
   GoVal.vInt 45, GoVal.vBool true, GoVal.vNil, GoVal.vInt 5, GoVal.vStr ""]

/-- The factory seeded from `protoUser` with no explicit bindings. -/
def userFact : Store Unit × Factory :=
  match NewFactory ([] : Store Unit) UserT protoUser [] with
  | Except.ok r => r
  | Except.error _ => ([], Factory.mk UserT 0 0)

/-- The `*User` value `Create` must produce from the seeded factory:
`Age == 45 && Married == true`, everything else zero. -/
def userVal : GoVal :=
  GoVal.vPtr (GoVal.vStruct
    [("ID", GoVal.vStr ""), ("Username", GoVal.vStr ""), ("FirstName", GoVal.vStr ""),
     ("LastName", GoVal.vStr ""), ("Email", GoVal.vStr ""), ("Age", GoVal.vInt 45),
     ("Married", GoVal.vBool true), ("Address", GoVal.vNil), ("i", GoVal.vInt 0),
     ("s", GoVal.vStr "")])

/-- C9: `ProtoGens` converts exactly the exported, non-zero-valued
prototype fields into implicit constant-value bindings, in struct field
declaration order (unexported fields are ignored even when non-zero);
`NewFactory` prepends them before the explicit bindings; and the concrete
prototype `{Age: 45, Married: true, i: 5}` with no explicit bindings
yields a factory holding the two bindings `Age@5`, `Married@6` whose
`Create` populates a fresh instance with `Age == 45`, `Married == true`
and every other field at its zero value. -/
theorem C9_prototype_seeding :
    (∀ (σ : Type) (typ : GoType) (proto : List GoVal),
        (typ.fields.map GoField.name).Nodup →
        evalFGFs typ (@ProtoGens σ typ proto)
          = Except.ok (@protoBindingsSpec σ typ proto))
    ∧ (∀ (σ : Type) (st : Store σ) (typ : GoType) (proto : List GoVal)
        (fgfs : List (FieldGenFunc σ)) (gp ge : List (FieldGen σ)),
        evalFGFs typ (@ProtoGens σ typ proto) = Except.ok gp →
        evalFGFs typ fgfs = Except.ok ge →
        NewFactory st typ proto fgfs
          = Except.ok (st ++ [gp ++ ge], Factory.mk typ st.length 0))
    ∧ getGens userFact.1 userFact.2
        = [FieldGen.mk "Age" 5 (Value (GoVal.vInt 45)),
           FieldGen.mk "Married" 6 (Value (GoVal.vBool true))]
    ∧ Factory.Create 1 userFact.1 userFact.2 [] () = (CreateRes.ok userVal, userFact.1, ()) := by
  refine ⟨?_, ?_, rfl, rfl⟩
  · intro σ typ proto hnd
    show evalFGFs typ
        ((typ.fields.zip proto).filterMap (fun p =>
          if p.1.exported = true ∧ isZero p.1.kind p.2 = false
          then some ((Use p.2).For [p.1.name])
          else none)) = _
    rw [protoGens_eval_aux typ hnd (typ.fields.zip proto) 0 ?_]
    · rfl
    · intro j p hj
      have h1 : (typ.fields.zip proto).get? j = some p := hj
      rw [List.get?_eq_getElem?] at h1
      have h2 := (List.getElem?_zip_eq_some.mp h1).1
      rw [Nat.zero_add, List.get?_eq_getElem?]
      exact h2
  · intro σ st typ proto fgfs gp ge hp he
    have hall := evalFGFs_append_ok typ (@ProtoGens σ typ proto) fgfs gp ge hp he
    simp only [NewFactory, hall, allocStore]

/-- Witness for C9: the general characterisation applied at the concrete
`UserT`/`protoUser` pair. -/
theorem C9_prototype_seeding_witness :
    evalFGFs UserT (@ProtoGens Unit UserT protoUser)
      = Except.ok (@protoBindingsSpec Unit UserT protoUser) :=
  C9_prototype_seeding.1 Unit UserT protoUser (by decide)

end GoFactory
